import Mathlib

/-!
# PortalbleService: frame codec and connection registry

A shallow embedding of `PortalbleService.cpp`.  Streams are strings passed explicitly,
the connection map is a key-sorted association list, and the single-precision
primitives (`+`, `-`, `/`, the literal `2.f` and the stream formatter) are a parameter
`FloatOps`, so that the results hold for whatever rounding the hardware performs.
-/

namespace PortalbleService

/-! ## Single-precision values -/

/-- A `float`: its sign bit and the remaining bits (exponent and fraction), the latter
kept abstract in `M`. -/
structure float (M : Type) where
  sign : Bool
  mag : M
deriving DecidableEq

/-- Unary minus of C++ on a `float`: the sign bit is flipped. -/
def float.neg {M : Type} (v : float M) : float M :=
  { sign := !v.sign, mag := v.mag }

/-- The single-precision primitives the source relies on: `a + b`, `a - b`, `a / b`,
the literal `2.f`, and `os << a` for a `float`. -/
structure FloatOps (M : Type) where
  add : float M → float M → float M
  sub : float M → float M → float M
  div : float M → float M → float M
  two : float M
  fmt : float M → String

/-! ## LeapC data (the fields the service reads) -/

/-- The LeapC vector `LEAP_VECTOR`. -/
structure LEAP_VECTOR (M : Type) where
  x : float M
  y : float M
  z : float M
deriving DecidableEq

/-- The LeapC bone `LEAP_BONE`: the two joints. -/
structure LEAP_BONE (M : Type) where
  prev_joint : LEAP_VECTOR M
  next_joint : LEAP_VECTOR M
deriving DecidableEq

/-! ## Text output -/

/-- The stream operator `operator<<(std::ostream&, const LEAP_VECTOR&)`. -/
def operator_lshift {M : Type} (ops : FloatOps M) (os : String) (vec : LEAP_VECTOR M) :
    String :=
  os ++ ops.fmt vec.x ++ "," ++ ops.fmt vec.y ++ "," ++ ops.fmt vec.z

/-- The function `swapYZ`: the three assignments in source order. -/
def swapYZ {M : Type} (vec : LEAP_VECTOR M) : LEAP_VECTOR M :=
  let vec1 : LEAP_VECTOR M := { vec with x := vec.x.neg }
  let tmp := vec1.y
  let vec2 : LEAP_VECTOR M := { vec1 with y := vec1.z.neg }
  { vec2 with z := tmp.neg }

/-- The function `OutputFingerBonePos`. -/
def OutputFingerBonePos {M : Type} (ops : FloatOps M) (out : String) (bone : LEAP_BONE M) :
    String :=
  let x := ops.div (ops.add bone.next_joint.x bone.prev_joint.x) ops.two
  let y := ops.div (ops.add bone.next_joint.y bone.prev_joint.y) ops.two
  let z := ops.div (ops.add bone.next_joint.z bone.prev_joint.z) ops.two
  out ++ ops.fmt x.neg ++ "," ++ ops.fmt z.neg ++ "," ++ ops.fmt y.neg

/-- The function `OutputFingerBoneDir`. -/
def OutputFingerBoneDir {M : Type} (ops : FloatOps M) (out : String) (bone : LEAP_BONE M) :
    String :=
  let x := ops.sub bone.next_joint.x bone.prev_joint.x
  let y := ops.sub bone.next_joint.y bone.prev_joint.y
  let z := ops.sub bone.next_joint.z bone.prev_joint.z
  out ++ ops.fmt x ++ "," ++ ops.fmt z ++ "," ++ ops.fmt y.neg

/-- The componentwise midpoint of a bone, `(next + prev) / 2.f` as `OutputFingerBonePos`
computes it. -/
def midpoint {M : Type} (ops : FloatOps M) (bone : LEAP_BONE M) : LEAP_VECTOR M :=
  { x := ops.div (ops.add bone.next_joint.x bone.prev_joint.x) ops.two
    y := ops.div (ops.add bone.next_joint.y bone.prev_joint.y) ops.two
    z := ops.div (ops.add bone.next_joint.z bone.prev_joint.z) ops.two }

/-- The componentwise difference `next - prev` of a bone, as `OutputFingerBoneDir`
computes it. -/
def difference {M : Type} (ops : FloatOps M) (bone : LEAP_BONE M) : LEAP_VECTOR M :=
  { x := ops.sub bone.next_joint.x bone.prev_joint.x
    y := ops.sub bone.next_joint.y bone.prev_joint.y
    z := ops.sub bone.next_joint.z bone.prev_joint.z }

/-! ## Tracking frames -/

/-- The LeapC enumeration `eLeapHandType`. -/
inductive eLeapHandType where
  | eLeapHandType_Left
  | eLeapHandType_Right
deriving DecidableEq

/-- The LeapC palm `LEAP_PALM`: the four vectors the service writes. -/
structure LEAP_PALM (M : Type) where
  position : LEAP_VECTOR M
  velocity : LEAP_VECTOR M
  normal : LEAP_VECTOR M
  direction : LEAP_VECTOR M
deriving DecidableEq

/-- The LeapC digit `LEAP_DIGIT`: the finger id and the four bones. -/
structure LEAP_DIGIT (M : Type) where
  finger_id : Int
  metacarpal : LEAP_BONE M
  proximal : LEAP_BONE M
  intermediate : LEAP_BONE M
  distal : LEAP_BONE M
deriving DecidableEq

/-- The array view `bones[b]` of a digit. -/
def LEAP_DIGIT.bones {M : Type} (d : LEAP_DIGIT M) : Fin 4 → LEAP_BONE M
  | 0 => d.metacarpal
  | 1 => d.proximal
  | 2 => d.intermediate
  | 3 => d.distal

/-- The LeapC hand `LEAP_HAND`: type, palm, the five digits and the arm. -/
structure LEAP_HAND (M : Type) where
  type : eLeapHandType
  palm : LEAP_PALM M
  thumb : LEAP_DIGIT M
  index : LEAP_DIGIT M
  middle : LEAP_DIGIT M
  ring : LEAP_DIGIT M
  pinky : LEAP_DIGIT M
  arm : LEAP_BONE M
deriving DecidableEq

/-- The array view `digits[f]` of a hand. -/
def LEAP_HAND.digits {M : Type} (h : LEAP_HAND M) : Fin 5 → LEAP_DIGIT M
  | 0 => h.thumb
  | 1 => h.index
  | 2 => h.middle
  | 3 => h.ring
  | 4 => h.pinky

/-- The LeapC event `LEAP_TRACKING_EVENT`: the hand count and the hand array that
`pHands` points to. -/
structure LEAP_TRACKING_EVENT (M : Type) where
  nHands : Nat
  pHands : List (LEAP_HAND M)
deriving DecidableEq

/-! ## The connection registry -/

/-- A websocketpp connection, as far as the service looks at it. -/
structure connection where
  id : Nat
  remote_endpoint : String
deriving DecidableEq

/-- The handle `websocketpp::connection_hdl`, a reference to a connection. -/
structure connection_hdl where
  con : connection
deriving DecidableEq

/-- The lookup `s->get_con_from_hdl(hdl)`; the transport calls the handlers with the
handle of a live connection, for which the lookup succeeds. -/
def get_con_from_hdl (hdl : connection_hdl) : connection :=
  hdl.con

/-- The accessor `con->get_remote_endpoint()`. -/
def connection.get_remote_endpoint (c : connection) : String :=
  c.remote_endpoint

/-- The global `connections`: a `std::map<std::string, connection_hdl>`, held as the
list of its entries in iteration order (ascending keys). -/
abbrev Connections := List (String × connection_hdl)

/-- The order of `std::less<std::string>`: lexicographic on the characters. -/
def key_lt (a b : String) : Prop :=
  a.data < b.data

instance (a b : String) : Decidable (key_lt a b) :=
  inferInstanceAs (Decidable (a.data < b.data))

/-- The entries of a `std::map` are in strictly ascending key order. -/
def Connections.sorted (m : Connections) : Prop :=
  m.Pairwise (fun a b => key_lt a.1 b.1)

instance (m : Connections) : Decidable m.sorted :=
  inferInstanceAs (Decidable (List.Pairwise
    (fun (a b : String × connection_hdl) => key_lt a.1 b.1) m))

/-- The member `std::map::insert(value)`: the entry is added at its place in key order
unless an entry with that key is present, in which case the map is left as it is. -/
def Connections.insert (value : String × connection_hdl) : Connections → Connections
  | [] => [value]
  | e :: rest =>
    if value.1 = e.1 then e :: rest
    else if key_lt value.1 e.1 then value :: e :: rest
    else e :: Connections.insert value rest

/-- The member `std::map::find(key)`: the position of the entry with that key, `none`
for `end()`. -/
def Connections.find (key : String) : Connections → Option Nat
  | [] => none
  | e :: rest =>
    if e.1 = key then some 0
    else (Connections.find key rest).map (· + 1)

/-- The member `std::map::erase(iterator)`. -/
def Connections.erase (m : Connections) (i : Nat) : Connections :=
  m.eraseIdx i

/-- The handler `websocket_open_handler`. -/
def websocket_open_handler (connections : Connections) (hdl : connection_hdl) :
    Connections :=
  let con := get_con_from_hdl hdl
  let remote := con.get_remote_endpoint
  Connections.insert (remote, hdl) connections

/-- The handler `websocket_close_handler`. -/
def websocket_close_handler (connections : Connections) (hdl : connection_hdl) :
    Connections :=
  let con := get_con_from_hdl hdl
  match Connections.find con.get_remote_endpoint connections with
  | some i => Connections.erase connections i
  | none => connections

/-- One call `server.send(hdl, payload, websocketpp::frame::opcode::text)`. -/
structure Send where
  hdl : connection_hdl
  payload : String
deriving DecidableEq

/-- The broadcast iteration of `OnFrame`: one `server.send` per entry of the map, in
iteration order. -/
def broadcast (connections : Connections) (outputstr : String) : List Send :=
  connections.map (fun entry => { hdl := entry.2, payload := outputstr })

/-! ## The frame codec -/

/-- The loop over the bones `b = 1, 2, 3` of a finger in `OnFrame`. -/
def OnFrame.bones {M : Type} (ops : FloatOps M) (ss : String) (finger : LEAP_DIGIT M) :
    String :=
  ([1, 2, 3] : List (Fin 4)).foldl
    (fun ss b =>
      let ss := ss ++ "finger_" ++ toString b.val ++ "_pos: "
      let ss := OutputFingerBonePos ops ss (finger.bones b)
      let ss := ss ++ "; finger_" ++ toString b.val ++ "_dir: "
      let ss := OutputFingerBoneDir ops ss (finger.bones b)
      ss ++ "; ")
    ss

/-- The loop over the fingers `f = 0, ..., 4` of a hand in `OnFrame`. -/
def OnFrame.fingers {M : Type} (ops : FloatOps M) (ss : String) (hand : LEAP_HAND M) :
    String :=
  ([0, 1, 2, 3, 4] : List (Fin 5)).foldl
    (fun ss f =>
      let finger := hand.digits f
      let ss := ss ++ "finger_type: " ++ toString finger.finger_id ++ "; "
      OnFrame.bones ops ss finger)
    ss

/-- The part of the body of the hand loop of `OnFrame` that writes the copy `hand` of
`frame->pHands[i]`: its type, its palm and its fingers. -/
def OnFrame.hand {M : Type} (ops : FloatOps M) (ss : String) (hand : LEAP_HAND M) : String :=
  let ss :=
    if hand.type = eLeapHandType.eLeapHandType_Left then ss ++ "hand_type: left; "
    else ss ++ "hand_type: right; "
  let position := swapYZ hand.palm.position
  let ss := operator_lshift ops (ss ++ "palm_pos: ") position ++ "; "
  let ss := operator_lshift ops (ss ++ "palm_vel: ") hand.palm.velocity ++ "; "
  let normal := swapYZ hand.palm.normal
  let ss := operator_lshift ops (ss ++ "palm_norm: ") normal ++ "; "
  let direction := swapYZ hand.palm.direction
  let ss := operator_lshift ops (ss ++ "palm_dir: ") direction ++ "; "
  OnFrame.fingers ops ss hand

/-- The part of the body of the hand loop of `OnFrame` that writes the arm, called with
`frame->pHands->arm`. -/
def OnFrame.arm {M : Type} (ops : FloatOps M) (ss : String) (arm : LEAP_BONE M) : String :=
  let ss := ss ++ "arm_pos: "
  let ss := OutputFingerBonePos ops ss arm
  let ss := ss ++ "; arm_dir: "
  OutputFingerBoneDir ops ss arm

/-- The body of the hand loop of `OnFrame` for index `i`, on the stream `ss` and the
sends made so far: the separator, the hand, the arm of the first hand of the array, the
broadcast, and the reset of the stream.  Reading past the end of the hand array gives
`none`. -/
def OnFrame.body {M : Type} (ops : FloatOps M) (frame : LEAP_TRACKING_EVENT M)
    (connections : Connections) (state : String × List Send) (i : Nat) :
    Option (String × List Send) := do
  let ss := if i > 0 then state.1 ++ "#OneMore#" else state.1
  let hand ← frame.pHands[i]?
  let ss := OnFrame.hand ops ss hand
  let first ← frame.pHands[0]?
  let ss := OnFrame.arm ops ss first.arm
  let outputstr := ss
  let sent := state.2 ++ broadcast connections outputstr
  pure ("", sent)

/-- The function `OnFrame`: the sends it makes, in order.  The loop
`for (i = 0; i < 2 && i < frame->nHands; ++i)` runs over `i < min 2 nHands`. -/
def OnFrame {M : Type} (ops : FloatOps M) (frame : LEAP_TRACKING_EVENT M)
    (connections : Connections) : Option (List Send) :=
  if frame.nHands > 0 then
    ((List.range (min 2 frame.nHands)).foldlM (OnFrame.body ops frame connections)
      ("", [])).map Prod.snd
  else
    some []

/-! ## An exact instance of the primitives

Exact arithmetic on fractions.  It agrees with binary32 arithmetic whenever the operands
and the result are exactly representable, as small integers and their halves are; it
performs no rounding and no overflow. -/

/-- A magnitude of the exact instance: the fraction `num / den`.  A zero denominator
stands for infinity (`num > 0`) or for NaN (`num = 0`). -/
structure Frac where
  num : Nat
  den : Nat
deriving DecidableEq

/-- The numerator of `v` over the common denominator `v.mag.den * other`, with sign. -/
def Frac.signed (v : float Frac) (other : Nat) : Int :=
  if v.sign then -((v.mag.num * other : Nat) : Int) else ((v.mag.num * other : Nat) : Int)

/-- Exact sum; a zero sum is `+0` unless both operands are negative. -/
def Frac.add (a b : float Frac) : float Frac :=
  let s : Int := Frac.signed a b.mag.den + Frac.signed b a.mag.den
  if s = 0 then { sign := a.sign && b.sign, mag := ⟨0, a.mag.den * b.mag.den⟩ }
  else { sign := decide (s < 0), mag := ⟨s.natAbs, a.mag.den * b.mag.den⟩ }

/-- Exact difference, `a + (-b)`. -/
def Frac.sub (a b : float Frac) : float Frac :=
  Frac.add a b.neg

/-- Exact quotient. -/
def Frac.div (a b : float Frac) : float Frac :=
  { sign := xor a.sign b.sign, mag := ⟨a.mag.num * b.mag.den, a.mag.den * b.mag.num⟩ }

/-- The number of times `d` can be multiplied by ten without exceeding `n`. -/
def expUp : Nat → Nat → Nat → Nat
  | 0, _, _ => 0
  | fuel + 1, n, d => if d * 10 ≤ n then expUp fuel n (d * 10) + 1 else 0

/-- The number of times `n` must be multiplied by ten to reach `d`. -/
def expDown : Nat → Nat → Nat → Nat
  | 0, _, _ => 0
  | fuel + 1, n, d => if n < d then expDown fuel (n * 10) d + 1 else 0

/-- The fraction `p / q` rounded to the nearest integer, ties to even. -/
def roundHalfEven (p q : Nat) : Nat :=
  if 2 * (p % q) < q then p / q
  else if q < 2 * (p % q) then p / q + 1
  else if (p / q) % 2 = 0 then p / q else p / q + 1

/-- Removes the trailing zero digits. -/
def stripZeros (l : List Char) : List Char :=
  (l.reverse.dropWhile (fun c => c == '0')).reverse

/-- The six significant decimal digits of `n / d` (as a number in `[10^5, 10^6)`) and
its decimal exponent. -/
def sixDigits (n d : Nat) : Nat × Int :=
  let e : Int := if d ≤ n then (expUp n n d : Int) else -(expDown d n d : Int)
  let m := roundHalfEven (n * 10 ^ (5 - e).toNat) (d * 10 ^ (e - 5).toNat)
  if 1000000 ≤ m then (m / 10, e + 1) else (m, e)

/-- The default stream format of a magnitude: six significant digits, fixed notation for
decimal exponents from -4 to 5 and scientific notation otherwise, trailing zeros
removed. -/
def Frac.fmtMag (m : Frac) : String :=
  if m.den = 0 then (if m.num = 0 then "nan" else "inf")
  else if m.num = 0 then "0"
  else
    let de := sixDigits m.num m.den
    let ds := Nat.toDigits 10 de.1
    if de.2 < -4 ∨ 6 ≤ de.2 then
      let frac := stripZeros (ds.drop 1)
      let e := Nat.toDigits 10 de.2.natAbs
      String.mk (ds.take 1 ++ (if frac = [] then [] else '.' :: frac) ++ ['e']
        ++ [if de.2 < 0 then '-' else '+'] ++ (if e.length < 2 then '0' :: e else e))
    else if 0 ≤ de.2 then
      let frac := stripZeros (ds.drop (de.2.toNat + 1))
      String.mk (ds.take (de.2.toNat + 1) ++ (if frac = [] then [] else '.' :: frac))
    else
      String.mk ('0' :: '.' :: List.replicate ((-de.2).toNat - 1) '0' ++ stripZeros ds)

/-- The default stream format of a value: a minus sign when the sign bit is set, then
the magnitude. -/
def Frac.fmt (v : float Frac) : String :=
  (if v.sign then "-" else "") ++ Frac.fmtMag v.mag

/-- Exact arithmetic as an instance of the primitives. -/
def exactOps : FloatOps Frac :=
  { add := Frac.add
    sub := Frac.sub
    div := Frac.div
    two := { sign := false, mag := ⟨2, 1⟩ }
    fmt := Frac.fmt }

/-- The non-negative integer `n` as a value of the exact instance. -/
def lit (n : Nat) : float Frac :=
  { sign := false, mag := ⟨n, 1⟩ }

/-- The vector with the non-negative integer components `a`, `b`, `c`. -/
def vec3 (a b c : Nat) : LEAP_VECTOR Frac :=
  { x := lit a, y := lit b, z := lit c }

/-- The bone from `(0,0,0)` to `(2,4,6)`. -/
def sampleBone : LEAP_BONE Frac :=
  { prev_joint := vec3 0 0 0, next_joint := vec3 2 4 6 }

/-! ## Notions used to state the properties -/

/-- The text that one pass of the hand loop of `OnFrame` writes for `hand` after the
separator: the hand itself, then the arm of `first`, the first hand of the array. -/
def encoding {M : Type} (ops : FloatOps M) (hand first : LEAP_HAND M) : String :=
  OnFrame.arm ops (OnFrame.hand ops "" hand) first.arm

/-- The payloads of the sends addressed to `hdl`, in order. -/
def sentTo (sends : List Send) (hdl : connection_hdl) : List String :=
  (sends.filter (fun s => s.hdl = hdl)).map (fun s => s.payload)

/-- The state of the registry between handler calls: ascending keys, and every entry
filed under the remote endpoint of its own connection, as `websocket_open_handler`
files it. -/
def Connections.valid (m : Connections) : Prop :=
  m.sorted ∧ ∀ e ∈ m, e.1 = (get_con_from_hdl e.2).get_remote_endpoint

instance (m : Connections) : Decidable m.valid :=
  inferInstanceAs
    (Decidable (m.sorted ∧ ∀ e ∈ m, e.1 = (get_con_from_hdl e.2).get_remote_endpoint))

/-- The number of positions of `text` at which `token` starts. -/
def occurrences (token : List Char) : List Char → Nat
  | [] => if token.isPrefixOf [] then 1 else 0
  | c :: cs => (if token.isPrefixOf (c :: cs) then 1 else 0) + occurrences token cs

/-- The separator written between the two hands. -/
def OneMore : String := "#OneMore#"

/-- The text `s` has no capital letter O. -/
def noO (s : String) : Prop :=
  'O' ∉ s.data

instance (s : String) : Decidable (noO s) :=
  inferInstanceAs (Decidable ('O' ∉ s.data))

/-! ## Sample data -/

/-- A digit with the given finger id. -/
def sampleDigit (id : Int) : LEAP_DIGIT Frac :=
  { finger_id := id
    metacarpal := sampleBone
    proximal := sampleBone
    intermediate := { prev_joint := vec3 1 1 1, next_joint := vec3 2 4 8 }
    distal := sampleBone }

/-- A hand of the given type with the given arm. -/
def sampleHand (type : eLeapHandType) (arm : LEAP_BONE Frac) : LEAP_HAND Frac :=
  { type := type
    palm :=
      { position := vec3 1 2 3, velocity := vec3 4 5 6, normal := vec3 0 1 0,
        direction := vec3 0 0 1 }
    thumb := sampleDigit 0
    index := sampleDigit 1
    middle := sampleDigit 2
    ring := sampleDigit 3
    pinky := sampleDigit 4
    arm := arm }

/-- A left hand whose arm runs from `(0,0,0)` to `(2,4,6)`. -/
def leftHand : LEAP_HAND Frac :=
  sampleHand eLeapHandType.eLeapHandType_Left sampleBone

/-- A right hand whose arm runs from `(1,1,1)` to `(3,3,3)`. -/
def rightHand : LEAP_HAND Frac :=
  sampleHand eLeapHandType.eLeapHandType_Right
    { prev_joint := vec3 1 1 1, next_joint := vec3 3 3 3 }

/-- A frame with two hands. -/
def twoHands : LEAP_TRACKING_EVENT Frac :=
  { nHands := 2, pHands := [leftHand, rightHand] }

/-- The handle of a connection from `127.0.0.1:5000`. -/
def clientA : connection_hdl :=
  { con := { id := 1, remote_endpoint := "127.0.0.1:5000" } }

/-- The handle of a later connection that reports the same remote endpoint. -/
def clientA2 : connection_hdl :=
  { con := { id := 2, remote_endpoint := "127.0.0.1:5000" } }

/-- The handle of a connection from `127.0.0.1:5001`. -/
def clientB : connection_hdl :=
  { con := { id := 3, remote_endpoint := "127.0.0.1:5001" } }

/-- The registry after `clientA` connected. -/
def registryA : Connections :=
  [("127.0.0.1:5000", clientA)]

/-! ## The lifecycle of `main` -/

/-- The LeapC result code `eLeapRS`, by its numeric value. -/
structure eLeapRS where
  code : Nat
deriving DecidableEq

/-- The result code of a successful call. -/
def eLeapRS.eLeapRS_Success : eLeapRS :=
  { code := 0 }

/-- The two worker threads, named by their start routines. -/
inductive Worker where
  | leapServiceLoop
  | websocketServiceLoop
deriving DecidableEq

/-- What the main thread does, one call at a time.  `cout` is a line written with
`endl`, `cin` a character extracted by `cin >> c`. -/
inductive Action where
  | InitializeCriticalSection
  | cout (line : String)
  | LeapCreateConnection
  | LeapOpenConnection
  | set_isRunning (value : Bool)
  | CreateThread (start : Worker)
  | cin (c : Char)
  | LeapCloseConnection
  | LeapDestroyConnection
  | WaitForSingleObject (thread : Worker)
  | CloseHandle (thread : Worker)
  | server_stop
  | DeleteCriticalSection
deriving DecidableEq

/-- The white space that `cin >> c` skips. -/
def isspace (c : Char) : Bool :=
  c = ' ' || c = '\t' || c = '\n' || c = '\x0b' || c = '\x0c' || c = '\r'

/-- The loop `while (true) { cin >> c; if (c == 'q') break; }` on the characters that
standard input will deliver: the extractions made until it breaks, or `none` when the
input holds no `q` and the loop never breaks. -/
def main.prompt : List Char → Option (List Action)
  | [] => none
  | c :: rest =>
    if isspace c then main.prompt rest
    else if c = 'q' then some [Action.cin c]
    else (main.prompt rest).map (fun reads => Action.cin c :: reads)

/-- The statements of `main` from `_isRunning = false` to `DeleteCriticalSection`. -/
def main.shutdown : List Action :=
  [Action.set_isRunning false, Action.LeapCloseConnection, Action.LeapDestroyConnection,
    Action.WaitForSingleObject Worker.leapServiceLoop, Action.CloseHandle Worker.leapServiceLoop,
    Action.server_stop,
    Action.WaitForSingleObject Worker.websocketServiceLoop,
    Action.CloseHandle Worker.websocketServiceLoop, Action.DeleteCriticalSection]

/-- The function `main`, given the results of `LeapCreateConnection` and
`LeapOpenConnection` and the characters on standard input: the calls of the main thread
and the exit code, or `none` when `main` never returns. -/
def main (create open_ : eLeapRS) (stdin : List Char) : Option (List Action × Int) :=
  let log := [Action.InitializeCriticalSection, Action.cout "Establishing Connection",
    Action.LeapCreateConnection]
  if create = eLeapRS.eLeapRS_Success then
    let log := log ++ [Action.cout "Connection created successfully", Action.LeapOpenConnection]
    let log :=
      if open_ = eLeapRS.eLeapRS_Success then
        log ++ [Action.set_isRunning true, Action.CreateThread Worker.leapServiceLoop,
          Action.cout "Leap Service started", Action.CreateThread Worker.websocketServiceLoop]
      else log
    let log := log ++ [Action.cout "Press q to exit"]
    match main.prompt stdin with
    | none => none
    | some reads => some (log ++ reads ++ main.shutdown, 0)
  else
    some (log, 0)

/-! ## The lock around the registry -/

/-- A step of a routine as the lock sees it: entering or leaving the critical section
`csconnections`, an operation on the map `connections`, or anything else. -/
inductive Step where
  | EnterCriticalSection
  | LeaveCriticalSection
  | map (operation : String)
  | other (call : String)
deriving DecidableEq

/-- The steps of `websocket_open_handler`, in source order. -/
def websocket_open_handler.steps : List Step :=
  [Step.other "cout", Step.other "get_con_from_hdl", Step.other "get_remote_endpoint",
    Step.map "insert"]

/-- The steps of `websocket_close_handler`, in source order; `found` tells whether
`find` returned an entry. -/
def websocket_close_handler.steps (found : Bool) : List Step :=
  [Step.other "cout", Step.EnterCriticalSection, Step.other "get_con_from_hdl",
    Step.other "get_remote_endpoint", Step.map "find", Step.map "end"]
    ++ (if found then [Step.map "erase", Step.other "cout"] else [])
    ++ [Step.LeaveCriticalSection]

/-- The steps of the broadcast of `OnFrame` over a map with `clients` entries, in source
order. -/
def OnFrame.broadcast_steps (clients : Nat) : List Step :=
  [Step.EnterCriticalSection, Step.map "begin"]
    ++ (List.replicate clients [Step.map "end", Step.other "send", Step.map "++iter"]).flatten
    ++ [Step.map "end", Step.LeaveCriticalSection]

/-- Whether every map operation of the steps happens inside the critical section, given
whether the routine is inside it at the start. -/
def guarded : Bool → List Step → Bool
  | _, [] => true
  | _, Step.EnterCriticalSection :: rest => guarded true rest
  | _, Step.LeaveCriticalSection :: rest => guarded false rest
  | held, Step.map _ :: rest => held && guarded held rest
  | held, Step.other _ :: rest => guarded held rest

/-- Whether the step is an operation on the map. -/
def Step.isMap : Step → Bool
  | Step.map _ => true
  | _ => false

/-- The owner of the lock after thread `t` makes the step. -/
def next_owner (owner : Option Bool) (t : Bool) : Step → Option Bool
  | Step.EnterCriticalSection => some t
  | Step.LeaveCriticalSection => if owner = some t then none else owner
  | _ => owner

/-- Two threads, the poll thread (`false`) and the server thread (`true`), run their
steps in the order the schedule gives; each event records the thread, the step and the
owner of the lock at that moment.  A thread cannot enter the critical section while the
other one owns it; such a schedule, or one that asks a finished thread to step, gives
`none`. -/
def interleave : List Bool → List Step → List Step → Option Bool →
    Option (List (Bool × Step × Option Bool))
  | [], _, _, _ => some []
  | t :: schedule, poll, server, owner =>
    match (if t then server else poll) with
    | [] => none
    | s :: rest =>
      if s = Step.EnterCriticalSection ∧ owner = some (!t) then none
      else
        (interleave schedule (if t then poll else rest) (if t then rest else server)
          (next_owner owner t s)).map (fun events => (t, s, owner) :: events)

/-! ## Lemmas: negation -/

theorem float_neg_neg {M : Type} (v : float M) : v.neg.neg = v := by
  cases v
  simp [float.neg]

/-! ## Lemmas: streams only grow -/

theorem foldl_append_only {β : Type} (f : String → β → String)
    (hf : ∀ s b, f s b = s ++ f "" b) (l : List β) (s : String) :
    l.foldl f s = s ++ l.foldl f "" := by
  induction l generalizing s with
  | nil => simp
  | cons b l ih =>
    simp only [List.foldl_cons]
    rw [ih (f s b), ih (f "" b), hf s b, String.append_assoc]

theorem OutputFingerBonePos_append {M : Type} (ops : FloatOps M) (out : String)
    (bone : LEAP_BONE M) :
    OutputFingerBonePos ops out bone = out ++ OutputFingerBonePos ops "" bone := by
  simp [OutputFingerBonePos, String.append_assoc]

theorem OutputFingerBoneDir_append {M : Type} (ops : FloatOps M) (out : String)
    (bone : LEAP_BONE M) :
    OutputFingerBoneDir ops out bone = out ++ OutputFingerBoneDir ops "" bone := by
  simp [OutputFingerBoneDir, String.append_assoc]

theorem OnFrame_bones_append {M : Type} (ops : FloatOps M) (ss : String)
    (finger : LEAP_DIGIT M) :
    OnFrame.bones ops ss finger = ss ++ OnFrame.bones ops "" finger := by
  unfold OnFrame.bones
  apply foldl_append_only
  intro s b
  simp [OutputFingerBonePos, OutputFingerBoneDir, String.append_assoc]

theorem OnFrame_fingers_append {M : Type} (ops : FloatOps M) (ss : String)
    (hand : LEAP_HAND M) :
    OnFrame.fingers ops ss hand = ss ++ OnFrame.fingers ops "" hand := by
  unfold OnFrame.fingers
  apply foldl_append_only
  intro s f
  simp only []
  rw [OnFrame_bones_append, OnFrame_bones_append ops ("" ++ _ ++ _ ++ _)]
  simp [String.append_assoc]

theorem OnFrame_hand_append {M : Type} (ops : FloatOps M) (ss : String)
    (hand : LEAP_HAND M) :
    OnFrame.hand ops ss hand = ss ++ OnFrame.hand ops "" hand := by
  simp only [OnFrame.hand, operator_lshift]
  rw [OnFrame_fingers_append, OnFrame_fingers_append ops (_ ++ _)]
  split <;> simp [String.append_assoc]

theorem OnFrame_arm_append {M : Type} (ops : FloatOps M) (ss : String)
    (arm : LEAP_BONE M) :
    OnFrame.arm ops ss arm = ss ++ OnFrame.arm ops "" arm := by
  simp [OnFrame.arm, OutputFingerBonePos, OutputFingerBoneDir, String.append_assoc]

theorem encoding_append {M : Type} (ops : FloatOps M) (ss : String)
    (hand first : LEAP_HAND M) :
    OnFrame.arm ops (OnFrame.hand ops ss hand) first.arm = ss ++ encoding ops hand first := by
  unfold encoding
  rw [OnFrame_arm_append, OnFrame_hand_append, OnFrame_arm_append ops (OnFrame.hand ops "" hand),
    String.append_assoc]

/-! ## Lemmas: what `OnFrame` sends -/

theorem OnFrame_zero {M : Type} (ops : FloatOps M) (frame : LEAP_TRACKING_EVENT M)
    (connections : Connections) (h : frame.nHands = 0) :
    OnFrame ops frame connections = some [] := by
  simp [OnFrame, h]

theorem OnFrame_one {M : Type} (ops : FloatOps M) (frame : LEAP_TRACKING_EVENT M)
    (connections : Connections) (h0 : LEAP_HAND M) (rest : List (LEAP_HAND M))
    (h : frame.nHands = 1) (hp : frame.pHands = h0 :: rest) :
    OnFrame ops frame connections = some (broadcast connections (encoding ops h0 h0)) := by
  simp [OnFrame, h, hp, OnFrame.body, List.range_succ, encoding]

theorem OnFrame_two {M : Type} (ops : FloatOps M) (frame : LEAP_TRACKING_EVENT M)
    (connections : Connections) (h0 h1 : LEAP_HAND M) (rest : List (LEAP_HAND M))
    (h : 2 ≤ frame.nHands) (hp : frame.pHands = h0 :: h1 :: rest) :
    OnFrame ops frame connections =
      some (broadcast connections (encoding ops h0 h0) ++
        broadcast connections ("#OneMore#" ++ encoding ops h1 h0)) := by
  have h2 : min 2 frame.nHands = 2 := by omega
  have hpos : frame.nHands > 0 := by omega
  simp only [OnFrame, h2, hpos, hp, OnFrame.body, List.range_succ, List.range_zero,
    List.nil_append, List.cons_append, List.foldlM_cons, List.foldlM_nil, if_true,
    gt_iff_lt, lt_self_iff_false, if_false, List.getElem?_cons_zero, List.getElem?_cons_succ,
    Option.pure_def, Option.bind_eq_bind, Option.some_bind, Option.map_some', zero_add,
    Nat.lt_one_iff, Nat.zero_lt_one]
  rw [encoding_append ops ("" ++ "#OneMore#"), String.empty_append]
  rfl

/-! ## Lemmas: the registry -/

theorem key_lt_iff (a b : String) : key_lt a b ↔ a < b := by
  unfold key_lt
  exact String.lt_iff_toList_lt.symm

theorem key_lt_irrefl (a : String) : ¬ key_lt a a := by
  rw [key_lt_iff]
  exact lt_irrefl a

theorem key_lt_trans {a b c : String} (h1 : key_lt a b) (h2 : key_lt b c) : key_lt a c := by
  rw [key_lt_iff] at *
  exact lt_trans h1 h2

theorem key_lt_asymm {a b : String} (h1 : key_lt a b) : ¬ key_lt b a := by
  intro h2
  exact key_lt_irrefl a (key_lt_trans h1 h2)

theorem key_lt_of_not {a b : String} (hne : a ≠ b) (h : ¬ key_lt a b) : key_lt b a := by
  rw [key_lt_iff] at *
  rcases lt_trichotomy a b with h1 | h1 | h1
  · exact absurd h1 h
  · exact absurd h1 hne
  · exact h1

theorem Connections_find_eq_none {key : String} {m : Connections}
    (h : ∀ e ∈ m, e.1 ≠ key) : Connections.find key m = none := by
  induction m with
  | nil => rfl
  | cons e rest ih =>
    have he : e.1 ≠ key := h e (List.mem_cons_self _ _)
    have hr : ∀ e' ∈ rest, e'.1 ≠ key := fun e' he' => h e' (List.mem_cons_of_mem _ he')
    simp [Connections.find, he, ih hr]

theorem Connections_insert_present {value : String × connection_hdl} {m : Connections}
    (hs : m.sorted) (h : ∃ e ∈ m, e.1 = value.1) : Connections.insert value m = m := by
  induction m with
  | nil => obtain ⟨e, he, _⟩ := h; cases he
  | cons e rest ih =>
    unfold Connections.insert
    by_cases hk : value.1 = e.1
    · simp [hk]
    · obtain ⟨e', he', hke⟩ := h
      have hmem : e' ∈ rest := by
        rcases List.mem_cons.1 he' with h1 | h1
        · exact absurd (h1 ▸ hke).symm hk
        · exact h1
      have hp := List.pairwise_cons.1 hs
      have hlt : key_lt e.1 value.1 := hke ▸ hp.1 e' hmem
      have hnlt : ¬ key_lt value.1 e.1 := key_lt_asymm hlt
      simp only [hk, hnlt, if_false]
      rw [ih hp.2 ⟨e', hmem, hke⟩]

theorem Connections_insert_bound {value : String × connection_hdl} {m : Connections}
    {k : String} (hv : key_lt k value.1) (hm : ∀ e ∈ m, key_lt k e.1) :
    ∀ e ∈ Connections.insert value m, key_lt k e.1 := by
  induction m with
  | nil =>
    intro e he
    simp only [Connections.insert, List.mem_singleton] at he
    exact he ▸ hv
  | cons e0 rest ih =>
    intro e he
    unfold Connections.insert at he
    have hrest : ∀ e ∈ rest, key_lt k e.1 := fun e he => hm e (List.mem_cons_of_mem _ he)
    split_ifs at he
    · exact hm e he
    · rcases List.mem_cons.1 he with h1 | h1
      · exact h1 ▸ hv
      · exact hm e h1
    · rcases List.mem_cons.1 he with h1 | h1
      · exact h1 ▸ hm e0 (List.mem_cons_self _ _)
      · exact ih hrest e h1

theorem Connections_insert_sorted {value : String × connection_hdl} {m : Connections}
    (hs : m.sorted) : (Connections.insert value m).sorted := by
  induction m with
  | nil => simp [Connections.insert, Connections.sorted]
  | cons e rest ih =>
    have hp := List.pairwise_cons.1 hs
    unfold Connections.insert
    by_cases hk : value.1 = e.1
    · simpa [hk] using hs
    · by_cases hlt : key_lt value.1 e.1
      · simp only [hk, hlt, if_true, if_false]
        refine List.pairwise_cons.2 ⟨?_, hs⟩
        intro a ha
        rcases List.mem_cons.1 ha with h1 | h1
        · exact h1 ▸ hlt
        · exact key_lt_trans hlt (hp.1 a h1)
      · simp only [hk, hlt, if_false]
        refine List.pairwise_cons.2 ⟨?_, ih hp.2⟩
        intro a ha
        exact Connections_insert_bound (key_lt_of_not hk hlt) hp.1 a ha

theorem Connections_filter_key_absent {key : String} {m : Connections}
    (h : ∀ e ∈ m, e.1 ≠ key) : m.filter (fun e => e.1 = key) = [] := by
  rw [List.filter_eq_nil_iff]
  intro e he
  simpa using h e he

theorem Connections_insert_absent {key : String} {hdl : connection_hdl} {m : Connections}
    (h : ∀ e ∈ m, e.1 ≠ key) :
    (Connections.insert (key, hdl) m).filter (fun e => e.1 = key) = [(key, hdl)] := by
  induction m with
  | nil => simp [Connections.insert]
  | cons e rest ih =>
    have he : e.1 ≠ key := h e (List.mem_cons_self _ _)
    have hr : ∀ e' ∈ rest, e'.1 ≠ key := fun e' he' => h e' (List.mem_cons_of_mem _ he')
    unfold Connections.insert
    have he' : ¬ key = e.1 := fun hh => he hh.symm
    by_cases hlt : key_lt key e.1
    · simp [he, he', hlt, Connections_filter_key_absent hr]
    · simp [he, he', hlt, ih hr]

theorem Connections_filter_key_present {key : String} {hdl : connection_hdl}
    {m : Connections} (hs : m.sorted) (h : (key, hdl) ∈ m) :
    m.filter (fun e => e.1 = key) = [(key, hdl)] := by
  induction m with
  | nil => cases h
  | cons e rest ih =>
    have hp := List.pairwise_cons.1 hs
    rcases List.mem_cons.1 h with h1 | h1
    · subst h1
      have hr : ∀ e' ∈ rest, e'.1 ≠ key := by
        intro e' he' heq
        have := hp.1 e' he'
        rw [heq] at this
        exact key_lt_irrefl _ this
      simp [Connections_filter_key_absent hr]
    · have hne : e.1 ≠ key := by
        intro heq
        have := hp.1 _ h1
        rw [heq] at this
        exact key_lt_irrefl _ this
      simp [hne, ih hp.2 h1]

theorem sentTo_append (a b : List Send) (hdl : connection_hdl) :
    sentTo (a ++ b) hdl = sentTo a hdl ++ sentTo b hdl := by
  simp [sentTo]

theorem sentTo_broadcast {m : Connections} {key : String} {hdl : connection_hdl}
    (hv : m.valid) (h : (key, hdl) ∈ m) (outputstr : String) :
    sentTo (broadcast m outputstr) hdl = [outputstr] := by
  have hkey : ∀ e ∈ m, e.2 = hdl ↔ e.1 = key := by
    intro e he
    constructor
    · intro h2
      have h5 : key = (get_con_from_hdl hdl).get_remote_endpoint := hv.2 _ h
      rw [hv.2 e he, h2, ← h5]
    · intro h1
      have h3 := Connections_filter_key_present hv.1 h
      have h4 : e ∈ m.filter (fun e => e.1 = key) := by
        simp [List.mem_filter, he, h1]
      rw [h3] at h4
      simp at h4
      rw [h4]
  have hf : m.filter (fun e => e.2 = hdl) = m.filter (fun e => e.1 = key) := by
    apply List.filter_congr
    intro e he
    simp [hkey e he]
  have hb : (broadcast m outputstr).filter (fun s => s.hdl = hdl) =
      (m.filter (fun e => e.2 = hdl)).map (fun e => { hdl := e.2, payload := outputstr }) := by
    simp [broadcast, List.filter_map, Function.comp_def]
  simp [sentTo, hb, hf, Connections_filter_key_present hv.1 h]

theorem Connections_valid_nil : Connections.valid [] := by
  simp [Connections.valid, Connections.sorted]

/-! ## Lemmas: the separator token -/

theorem OneMore_no_match (c : Char) (cs : List Char) (h : cs.head? ≠ some 'O') :
    OneMore.data.isPrefixOf (c :: cs) = false := by
  cases cs with
  | nil => simp [OneMore, List.isPrefixOf]
  | cons d ds =>
    have hd : d ≠ 'O' := by simpa using h
    simp only [OneMore, List.isPrefixOf, Bool.and_eq_false_imp, beq_iff_eq]
    intro _ h2
    exact absurd h2.symm hd

theorem head_ne_of_not_mem (e rest : List Char) (he : 'O' ∉ e) (hr : rest.head? ≠ some 'O') :
    (e ++ rest).head? ≠ some 'O' := by
  cases e with
  | nil => simpa using hr
  | cons d ds =>
    have : d ≠ 'O' := fun h => he (h ▸ List.mem_cons_self _ _)
    simpa using this

theorem occurrences_skip (e rest : List Char) (he : 'O' ∉ e) (hr : rest.head? ≠ some 'O') :
    occurrences OneMore.data (e ++ rest) = occurrences OneMore.data rest := by
  induction e with
  | nil => rfl
  | cons c e ih =>
    have hc : 'O' ∉ e := fun h => he (List.mem_cons_of_mem _ h)
    show (if OneMore.data.isPrefixOf (c :: (e ++ rest)) then 1 else 0)
      + occurrences OneMore.data (e ++ rest) = _
    rw [OneMore_no_match c _ (head_ne_of_not_mem e rest hc hr), ih hc]
    simp

theorem occurrences_free (e : List Char) (he : 'O' ∉ e) : occurrences OneMore.data e = 0 := by
  have h := occurrences_skip e [] he (by simp)
  rw [List.append_nil] at h
  rw [h]
  rfl

theorem occurrences_cons (c : Char) (cs : List Char) (h : cs.head? ≠ some 'O') :
    occurrences OneMore.data (c :: cs) = occurrences OneMore.data cs := by
  show (if OneMore.data.isPrefixOf (c :: cs) then 1 else 0) + occurrences OneMore.data cs = _
  rw [OneMore_no_match c cs h]
  simp

theorem occurrences_token (e : List Char) (he : 'O' ∉ e) :
    occurrences OneMore.data (OneMore.data ++ e) = 1 := by
  have hh : e.head? ≠ some 'O' := by
    have := head_ne_of_not_mem e [] he (by simp)
    rwa [List.append_nil] at this
  have h3 : OneMore.data ++ e
      = '#' :: 'O' :: 'n' :: 'e' :: 'M' :: 'o' :: 'r' :: 'e' :: '#' :: e := rfl
  have h4 : OneMore.data.isPrefixOf
      ('#' :: 'O' :: 'n' :: 'e' :: 'M' :: 'o' :: 'r' :: 'e' :: '#' :: e) = true := by
    simp [OneMore, List.isPrefixOf]
  rw [h3]
  show (if OneMore.data.isPrefixOf _ then 1 else 0) + occurrences OneMore.data _ = 1
  rw [h4, occurrences_cons _ _ (by simp), occurrences_cons _ _ (by simp),
    occurrences_cons _ _ (by simp), occurrences_cons _ _ (by simp),
    occurrences_cons _ _ (by simp), occurrences_cons _ _ (by simp),
    occurrences_cons _ _ (by simp), occurrences_cons _ _ hh, occurrences_free e he]
  rfl

theorem noO_append {a b : String} (ha : noO a) (hb : noO b) : noO (a ++ b) := by
  simp only [noO, String.data_append, List.mem_append, not_or]
  exact ⟨ha, hb⟩

theorem digitChar_ne_O (n : Nat) (h : n < 10) : Nat.digitChar n ≠ 'O' := by
  interval_cases n <;> decide

theorem toDigitsCore_noO (fuel n : Nat) (ds : List Char) (h : 'O' ∉ ds) :
    'O' ∉ Nat.toDigitsCore 10 fuel n ds := by
  induction fuel generalizing n ds with
  | zero => simpa [Nat.toDigitsCore] using h
  | succ fuel ih =>
    have hd : 'O' ∉ Nat.digitChar (n % 10) :: ds := by
      intro hm
      rcases List.mem_cons.1 hm with h1 | h1
      · exact digitChar_ne_O (n % 10) (Nat.mod_lt _ (by norm_num)) h1.symm
      · exact h h1
    unfold Nat.toDigitsCore
    dsimp only
    split_ifs
    · exact hd
    · exact ih _ _ hd

theorem toDigits_noO (n : Nat) : 'O' ∉ Nat.toDigits 10 n := by
  unfold Nat.toDigits
  exact toDigitsCore_noO _ _ _ (by simp)

theorem noO_toString_nat (n : Nat) : noO (toString n) := by
  show 'O' ∉ (Nat.repr n).data
  simp only [Nat.repr, List.asString]
  exact toDigits_noO n

theorem noO_toString_int (i : Int) : noO (toString i) := by
  cases i with
  | ofNat n => exact noO_toString_nat n
  | negSucc n =>
    show noO ("-" ++ toString (n + 1))
    exact noO_append (by decide) (noO_toString_nat _)

theorem foldl_noO {β : Type} (f : String → β → String)
    (hf : ∀ s b, noO s → noO (f s b)) (l : List β) (s : String) (hs : noO s) :
    noO (l.foldl f s) := by
  induction l generalizing s with
  | nil => simpa using hs
  | cons b l ih => exact ih _ (hf s b hs)

theorem noO_vector {M : Type} (ops : FloatOps M) (hfmt : ∀ v, noO (ops.fmt v))
    (os : String) (hos : noO os) (vec : LEAP_VECTOR M) : noO (operator_lshift ops os vec) := by
  unfold operator_lshift
  exact noO_append (noO_append (noO_append (noO_append (noO_append hos (hfmt _)) (by decide))
    (hfmt _)) (by decide)) (hfmt _)

theorem noO_pos {M : Type} (ops : FloatOps M) (hfmt : ∀ v, noO (ops.fmt v))
    (out : String) (hout : noO out) (bone : LEAP_BONE M) :
    noO (OutputFingerBonePos ops out bone) := by
  unfold OutputFingerBonePos
  exact noO_append (noO_append (noO_append (noO_append (noO_append hout (hfmt _)) (by decide))
    (hfmt _)) (by decide)) (hfmt _)

theorem noO_dir {M : Type} (ops : FloatOps M) (hfmt : ∀ v, noO (ops.fmt v))
    (out : String) (hout : noO out) (bone : LEAP_BONE M) :
    noO (OutputFingerBoneDir ops out bone) := by
  unfold OutputFingerBoneDir
  exact noO_append (noO_append (noO_append (noO_append (noO_append hout (hfmt _)) (by decide))
    (hfmt _)) (by decide)) (hfmt _)

theorem noO_bones {M : Type} (ops : FloatOps M) (hfmt : ∀ v, noO (ops.fmt v))
    (ss : String) (hss : noO ss) (finger : LEAP_DIGIT M) :
    noO (OnFrame.bones ops ss finger) := by
  unfold OnFrame.bones
  apply foldl_noO _ _ _ _ hss
  intro s b hs
  apply noO_append _ (by decide)
  apply noO_dir ops hfmt
  apply noO_append _ (by decide)
  apply noO_append _ (noO_toString_nat _)
  apply noO_append _ (by decide)
  apply noO_pos ops hfmt
  apply noO_append _ (by decide)
  apply noO_append _ (noO_toString_nat _)
  exact noO_append hs (by decide)

theorem noO_fingers {M : Type} (ops : FloatOps M) (hfmt : ∀ v, noO (ops.fmt v))
    (ss : String) (hss : noO ss) (hand : LEAP_HAND M) :
    noO (OnFrame.fingers ops ss hand) := by
  unfold OnFrame.fingers
  apply foldl_noO _ _ _ _ hss
  intro s f hs
  apply noO_bones ops hfmt
  apply noO_append _ (by decide)
  apply noO_append _ (noO_toString_int _)
  exact noO_append hs (by decide)

theorem noO_encoding {M : Type} (ops : FloatOps M) (hfmt : ∀ v, noO (ops.fmt v))
    (hand first : LEAP_HAND M) : noO (encoding ops hand first) := by
  unfold encoding OnFrame.arm OnFrame.hand
  apply noO_dir ops hfmt
  apply noO_append _ (by decide)
  apply noO_pos ops hfmt
  apply noO_append _ (by decide)
  apply noO_fingers ops hfmt
  apply noO_append _ (by decide)
  apply noO_vector ops hfmt
  apply noO_append _ (by decide)
  apply noO_append _ (by decide)
  apply noO_vector ops hfmt
  apply noO_append _ (by decide)
  apply noO_append _ (by decide)
  apply noO_vector ops hfmt
  apply noO_append _ (by decide)
  apply noO_append _ (by decide)
  apply noO_vector ops hfmt
  apply noO_append _ (by decide)
  split <;> decide

theorem stripZeros_noO (l : List Char) (h : 'O' ∉ l) : 'O' ∉ stripZeros l := by
  intro hm
  unfold stripZeros at hm
  rw [List.mem_reverse] at hm
  have := (List.dropWhile_sublist _).subset hm
  exact h (List.mem_reverse.1 this)

theorem fmtMag_noO (m : Frac) : noO (Frac.fmtMag m) := by
  unfold Frac.fmtMag
  have hd : ∀ n, 'O' ∉ Nat.toDigits 10 n := toDigits_noO
  have htake : ∀ n k, 'O' ∉ (Nat.toDigits 10 n).take k :=
    fun n k hm => hd n (List.mem_of_mem_take hm)
  have hdrop : ∀ n k, 'O' ∉ stripZeros ((Nat.toDigits 10 n).drop k) :=
    fun n k => stripZeros_noO _ (fun hm => hd n (List.mem_of_mem_drop hm))
  have hfrac : ∀ l : List Char, 'O' ∉ l → 'O' ∉ (if l = [] then [] else '.' :: l) := by
    intro l hl
    split_ifs
    · simp
    · simp only [List.mem_cons, not_or]
      exact ⟨by decide, hl⟩
  by_cases h1 : m.den = 0
  · rw [if_pos h1]
    split_ifs <;> decide
  rw [if_neg h1]
  by_cases h2 : m.num = 0
  · rw [if_pos h2]
    decide
  rw [if_neg h2]
  dsimp only
  by_cases h3 : (sixDigits m.num m.den).2 < -4 ∨ 6 ≤ (sixDigits m.num m.den).2
  · rw [if_pos h3]
    simp only [noO, List.mem_append, not_or]
    refine ⟨⟨⟨⟨htake _ _, hfrac _ (hdrop _ _)⟩, by decide⟩, ?_⟩, ?_⟩
    · split_ifs <;> decide
    · split_ifs
      · simp only [List.mem_cons, not_or]
        exact ⟨by decide, hd _⟩
      · exact hd _
  rw [if_neg h3]
  by_cases h4 : 0 ≤ (sixDigits m.num m.den).2
  · rw [if_pos h4]
    simp only [noO, List.mem_append, not_or]
    exact ⟨htake _ _, hfrac _ (hdrop _ _)⟩
  rw [if_neg h4]
  have hrep : ∀ k, 'O' ∉ List.replicate k '0' := by
    intro k hm
    exact absurd (List.eq_of_mem_replicate hm) (by decide)
  show 'O' ∉ '0' :: '.' :: List.replicate _ '0' ++ stripZeros _
  intro hm
  rcases List.mem_cons.1 hm with h5 | h5
  · exact absurd h5 (by decide)
  rcases List.mem_cons.1 h5 with h6 | h6
  · exact absurd h6 (by decide)
  rcases List.mem_append.1 h6 with h7 | h7
  · exact hrep _ h7
  · exact stripZeros_noO _ (hd _) h7

theorem exactOps_fmt_noO (v : float Frac) : noO (exactOps.fmt v) := by
  show noO ((if v.sign then "-" else "") ++ Frac.fmtMag v.mag)
  apply noO_append _ (fmtMag_noO _)
  split_ifs <;> decide

/-! ## Lemmas: only the first two hands are read -/

theorem OnFrame_truncate {M : Type} (ops : FloatOps M) (frame : LEAP_TRACKING_EVENT M)
    (connections : Connections) :
    OnFrame ops frame connections =
      OnFrame ops { nHands := min frame.nHands 2, pHands := frame.pHands.take 2 }
        connections := by
  obtain ⟨n, hands⟩ := frame
  rcases n with _ | _ | n
  · simp [OnFrame]
  · rcases hands with _ | ⟨a, _ | ⟨b, rest⟩⟩ <;>
      simp [OnFrame, OnFrame.body, List.range_succ]
  · have h2 : min 2 (n + 1 + 1) = 2 := by omega
    have h3 : min (n + 1 + 1) 2 = 2 := by omega
    rcases hands with _ | ⟨a, _ | ⟨b, rest⟩⟩ <;>
      simp [OnFrame, OnFrame.body, List.range_succ, h2, h3]

/-! ## Lemmas: the arm and the handlers -/

theorem encoding_split {M : Type} (ops : FloatOps M) (hand first : LEAP_HAND M) :
    encoding ops hand first = OnFrame.hand ops "" hand ++ OnFrame.arm ops "" first.arm := by
  unfold encoding
  rw [OnFrame_arm_append]

theorem Connections_insert_has_key (value : String × connection_hdl) (m : Connections) :
    ∃ e ∈ Connections.insert value m, e.1 = value.1 := by
  induction m with
  | nil => exact ⟨value, by simp [Connections.insert], rfl⟩
  | cons e rest ih =>
    unfold Connections.insert
    split_ifs with h1 h2
    · exact ⟨e, List.mem_cons_self _ _, h1.symm⟩
    · exact ⟨value, List.mem_cons_self _ _, rfl⟩
    · obtain ⟨e', he', hk⟩ := ih
      exact ⟨e', List.mem_cons_of_mem _ he', hk⟩

/-! ## Lemmas: the handlers keep the registry valid -/

theorem Connections_mem_insert {value e : String × connection_hdl} {m : Connections}
    (h : e ∈ Connections.insert value m) : e = value ∨ e ∈ m := by
  induction m with
  | nil =>
    simp only [Connections.insert, List.mem_singleton] at h
    exact Or.inl h
  | cons e0 rest ih =>
    unfold Connections.insert at h
    split_ifs at h
    · exact Or.inr h
    · rcases List.mem_cons.1 h with h1 | h1
      · exact Or.inl h1
      · exact Or.inr h1
    · rcases List.mem_cons.1 h with h1 | h1
      · exact Or.inr (h1 ▸ List.mem_cons_self _ _)
      · rcases ih h1 with h2 | h2
        · exact Or.inl h2
        · exact Or.inr (List.mem_cons_of_mem _ h2)

theorem websocket_open_handler_valid {m : Connections} (hv : m.valid)
    (hdl : connection_hdl) : (websocket_open_handler m hdl).valid := by
  refine ⟨Connections_insert_sorted hv.1, ?_⟩
  intro e he
  rcases Connections_mem_insert he with h1 | h1
  · rw [h1]
  · exact hv.2 e h1

theorem websocket_close_handler_valid {m : Connections} (hv : m.valid)
    (hdl : connection_hdl) : (websocket_close_handler m hdl).valid := by
  unfold websocket_close_handler
  dsimp only
  cases Connections.find (get_con_from_hdl hdl).get_remote_endpoint m with
  | none => exact hv
  | some i =>
    refine ⟨List.Pairwise.sublist (List.eraseIdx_sublist _ _) hv.1, ?_⟩
    intro e he
    exact hv.2 e ((List.eraseIdx_sublist _ _).subset he)

/-! ## Lemmas: the prompt loop -/

theorem main_prompt_of_mem (stdin : List Char) (h : 'q' ∈ stdin) :
    main.prompt stdin =
      some ((((stdin.filter (fun c => !isspace c)).takeWhile (fun c => c ≠ 'q')).map
        Action.cin) ++ [Action.cin 'q']) := by
  induction stdin with
  | nil => cases h
  | cons c rest ih =>
    unfold main.prompt
    by_cases hs : isspace c = true
    · have hc : c ≠ 'q' := by
        intro hq
        rw [hq] at hs
        exact absurd hs (by decide)
      have hrest : 'q' ∈ rest := by
        rcases List.mem_cons.1 h with h1 | h1
        · exact absurd h1.symm hc
        · exact h1
      simp [hs, ih hrest]
    · by_cases hq : c = 'q'
      · subst hq
        have hsq : isspace 'q' = false := by decide
        simp [hsq, List.filter_cons, List.takeWhile_cons]
      · have hrest : 'q' ∈ rest := by
          rcases List.mem_cons.1 h with h1 | h1
          · exact absurd h1.symm hq
          · exact h1
        simp [hs, hq, ih hrest]

theorem main_prompt_of_not_mem (stdin : List Char) (h : 'q' ∉ stdin) :
    main.prompt stdin = none := by
  induction stdin with
  | nil => rfl
  | cons c rest ih =>
    have hq : c ≠ 'q' := fun hc => h (hc ▸ List.mem_cons_self _ _)
    have hrest : 'q' ∉ rest := fun hm => h (List.mem_cons_of_mem _ hm)
    unfold main.prompt
    by_cases hs : isspace c = true
    · simp [hs, ih hrest]
    · simp [hs, hq, ih hrest]

/-! ## Lemmas: routines that keep to the critical section -/

theorem guarded_broadcast_steps (clients : Nat) :
    guarded false (OnFrame.broadcast_steps clients) = true := by
  have h : ∀ (k : Nat) (tail : List Step), guarded true tail = true →
      guarded true ((List.replicate k
        [Step.map "end", Step.other "send", Step.map "++iter"]).flatten ++ tail) = true := by
    intro k tail ht
    induction k with
    | zero => simpa using ht
    | succ k ih =>
      simp only [List.replicate_succ, List.flatten_cons, List.append_assoc, List.cons_append,
        List.nil_append, guarded, Bool.true_and]
      exact ih
  simp only [OnFrame.broadcast_steps, List.cons_append, List.nil_append, List.append_assoc,
    guarded, Bool.true_and]
  exact h clients _ (by simp [guarded])

theorem guarded_close_steps (found : Bool) :
    guarded false (websocket_close_handler.steps found) = true := by
  cases found <;> decide

theorem guarded_tail {held : Bool} {s : Step} {rest : List Step}
    (h : guarded held (s :: rest) = true) :
    guarded (match s with
      | Step.EnterCriticalSection => true
      | Step.LeaveCriticalSection => false
      | _ => held) rest = true := by
  cases s with
  | EnterCriticalSection => simpa [guarded] using h
  | LeaveCriticalSection => simpa [guarded] using h
  | map op =>
    simp only [guarded, Bool.and_eq_true] at h
    exact h.2
  | other call => simpa [guarded] using h

theorem step_keeps_guarded (t : Bool) (owner : Option Bool) (s : Step)
    (rest other : List Step)
    (hmine : guarded (decide (owner = some t)) (s :: rest) = true)
    (hother : guarded (decide (owner = some (!t))) other = true)
    (hblock : ¬(s = Step.EnterCriticalSection ∧ owner = some (!t))) :
    guarded (decide (next_owner owner t s = some t)) rest = true ∧
      guarded (decide (next_owner owner t s = some (!t))) other = true ∧
      (s.isMap = true → owner = some t) := by
  cases s <;> cases t <;> rcases owner with _ | _ | _ <;>
    simp_all [next_owner, guarded, Step.isMap]

theorem interleave_guarded (schedule : List Bool) :
    ∀ (poll server : List Step) (owner : Option Bool)
      (events : List (Bool × Step × Option Bool)),
      guarded (decide (owner = some false)) poll = true →
      guarded (decide (owner = some true)) server = true →
      interleave schedule poll server owner = some events →
      ∀ e ∈ events, e.2.1.isMap = true → e.2.2 = some e.1 := by
  induction schedule with
  | nil =>
    intro poll server owner events _ _ h e he
    simp only [interleave, Option.some.injEq] at h
    rw [← h] at he
    cases he
  | cons t schedule ih =>
    intro poll server owner events hp hs h e he hmap
    cases t with
    | false =>
      cases poll with
      | nil => simp [interleave] at h
      | cons s rest =>
        simp only [interleave, Bool.false_eq_true, if_false, Bool.not_false] at h
        split_ifs at h with hblock
        simp only [Option.map_eq_some'] at h
        obtain ⟨events', hrec, hev⟩ := h
        obtain ⟨h1, h2, h3⟩ := step_keeps_guarded false owner s rest server hp hs hblock
        rw [← hev] at he
        rcases List.mem_cons.1 he with he1 | he1
        · subst he1
          exact h3 hmap
        · exact ih rest server _ events' h1 h2 hrec e he1 hmap
    | true =>
      cases server with
      | nil => simp [interleave] at h
      | cons s rest =>
        simp only [interleave, if_true, Bool.not_true] at h
        split_ifs at h with hblock
        simp only [Option.map_eq_some'] at h
        obtain ⟨events', hrec, hev⟩ := h
        obtain ⟨h1, h2, h3⟩ := step_keeps_guarded true owner s rest poll hs hp hblock
        rw [← hev] at he
        rcases List.mem_cons.1 he with he1 | he1
        · subst he1
          exact h3 hmap
        · exact ih poll rest _ events' h2 h1 hrec e he1 hmap

/-! ## The axis remap and the bone transforms -/

/-- C10: `swapYZ` maps `v` to `(-v.x, -v.z, -v.y)`, and applying it twice gives back
`v`. -/
theorem swapYZ_remap_involutive {M : Type} (v : LEAP_VECTOR M) :
    swapYZ v = { x := v.x.neg, y := v.z.neg, z := v.y.neg } ∧ swapYZ (swapYZ v) = v := by
  refine ⟨rfl, ?_⟩
  simp only [swapYZ, float_neg_neg]

/-- C3, as the claim states it, fails: for the bone from `(0,0,0)` to `(2,4,6)` the text
written is `2,6,-4`, not the text `2,-6,4` of `(d.x, -d.z, d.y)`. -/
theorem OutputFingerBoneDir_not_negZ_posY :
    OutputFingerBoneDir exactOps "" sampleBone = "2,6,-4" ∧
      operator_lshift exactOps ""
        { x := (difference exactOps sampleBone).x
          y := (difference exactOps sampleBone).z.neg
          z := (difference exactOps sampleBone).y } = "2,-6,4" ∧
      OutputFingerBoneDir exactOps "" sampleBone ≠
        operator_lshift exactOps ""
          { x := (difference exactOps sampleBone).x
            y := (difference exactOps sampleBone).z.neg
            z := (difference exactOps sampleBone).y } := by
  decide

/-- C3 (amended): `OutputFingerBoneDir` appends the difference `d = next - prev` with X
unchanged, new Y equal to old Z, and new Z equal to the negation of old Y, that is the
three components `(d.x, d.z, -d.y)` separated by commas; compared with the remap
`swapYZ d = (-d.x, -d.z, -d.y)` of positions, the first two components carry the
opposite sign and the third the same. -/
theorem OutputFingerBoneDir_writes {M : Type} (ops : FloatOps M) (out : String)
    (bone : LEAP_BONE M) :
    OutputFingerBoneDir ops out bone =
        out ++ ops.fmt (ops.sub bone.next_joint.x bone.prev_joint.x) ++ ","
          ++ ops.fmt (ops.sub bone.next_joint.z bone.prev_joint.z) ++ ","
          ++ ops.fmt (ops.sub bone.next_joint.y bone.prev_joint.y).neg ∧
      OutputFingerBoneDir ops out bone =
        operator_lshift ops out
          { x := (difference ops bone).x
            y := (difference ops bone).z
            z := (difference ops bone).y.neg } ∧
      OutputFingerBoneDir ops out bone =
        operator_lshift ops out
          { x := (swapYZ (difference ops bone)).x.neg
            y := (swapYZ (difference ops bone)).y.neg
            z := (swapYZ (difference ops bone)).z } := by
  refine ⟨rfl, rfl, ?_⟩
  simp only [swapYZ, float_neg_neg]
  rfl

/-- C4: `OutputFingerBonePos` writes `(-m.x, -m.z, -m.y)`, the `swapYZ` remap of the
midpoint `m`; `OutputFingerBoneDir` writes `(d.x, d.z, -d.y)` for the difference `d`;
for the bone from `(0,0,0)` to `(2,4,6)` the texts are `-1,-3,-2` and `2,6,-4`. -/
theorem bone_transforms {M : Type} (ops : FloatOps M) (out : String) (bone : LEAP_BONE M) :
    OutputFingerBonePos ops out bone =
        operator_lshift ops out
          { x := (midpoint ops bone).x.neg
            y := (midpoint ops bone).z.neg
            z := (midpoint ops bone).y.neg } ∧
      OutputFingerBonePos ops out bone = operator_lshift ops out (swapYZ (midpoint ops bone)) ∧
      OutputFingerBoneDir ops out bone =
        operator_lshift ops out
          { x := (difference ops bone).x
            y := (difference ops bone).z
            z := (difference ops bone).y.neg } ∧
      OutputFingerBonePos exactOps "" sampleBone = "-1,-3,-2" ∧
      OutputFingerBoneDir exactOps "" sampleBone = "2,6,-4" := by
  refine ⟨rfl, rfl, rfl, ?_, ?_⟩ <;> decide

/-! ## The frame codec: messages per frame -/

/-- C1, as the claim states it, fails: for a frame with two hands the single registered
client is sent two messages, not one. -/
theorem OnFrame_two_hands_two_messages :
    (OnFrame exactOps twoHands registryA).map (fun sends => (sentTo sends clientA).length)
        = some 2 ∧
      (OnFrame exactOps twoHands registryA).map (fun sends => (sentTo sends clientA).length)
        ≠ some 1 := by
  decide

/-- C1 (amended): for every frame and every client in the registry, `OnFrame` sends that
client `min nHands 2` messages: none for a frame without hands, the encoding of hand 0
for one hand, and for two or more hands the encoding of hand 0 followed by a second
message made of the separator and the encoding of hand 1. -/
theorem OnFrame_messages_per_client {M : Type} (ops : FloatOps M)
    (frame : LEAP_TRACKING_EVENT M) (connections : Connections) (key : String)
    (hdl : connection_hdl) (hlen : frame.nHands ≤ frame.pHands.length)
    (hvalid : connections.valid) (hmem : (key, hdl) ∈ connections) :
    ∃ sends, OnFrame ops frame connections = some sends ∧
      (sentTo sends hdl).length = min frame.nHands 2 ∧
      (frame.nHands = 0 → sentTo sends hdl = []) ∧
      (frame.nHands = 1 → ∃ h0, frame.pHands[0]? = some h0 ∧
        sentTo sends hdl = [encoding ops h0 h0]) ∧
      (2 ≤ frame.nHands → ∃ h0 h1, frame.pHands[0]? = some h0 ∧ frame.pHands[1]? = some h1 ∧
        sentTo sends hdl = [encoding ops h0 h0, "#OneMore#" ++ encoding ops h1 h0]) := by
  rcases Nat.lt_or_ge frame.nHands 1 with h | h
  · have h0 : frame.nHands = 0 := by omega
    refine ⟨[], OnFrame_zero ops frame connections h0, ?_, ?_, ?_, ?_⟩
    · simp [sentTo, h0]
    · intro _; rfl
    · intro h1; omega
    · intro h2; omega
  rcases Nat.lt_or_ge frame.nHands 2 with h' | h'
  · have h1 : frame.nHands = 1 := by omega
    obtain ⟨a, rest, hp⟩ : ∃ a rest, frame.pHands = a :: rest := by
      cases hp : frame.pHands with
      | nil => rw [hp] at hlen; simp at hlen; omega
      | cons a rest => exact ⟨a, rest, rfl⟩
    have hs := sentTo_broadcast hvalid hmem (encoding ops a a)
    refine ⟨_, OnFrame_one ops frame connections a rest h1 hp, ?_, ?_, ?_, ?_⟩
    · rw [hs, h1]; rfl
    · intro h0; omega
    · intro _; exact ⟨a, by simp [hp], hs⟩
    · intro h2; omega
  · obtain ⟨a, b, rest, hp⟩ : ∃ a b rest, frame.pHands = a :: b :: rest := by
      cases hp : frame.pHands with
      | nil => rw [hp] at hlen; simp at hlen; omega
      | cons a l =>
        cases l with
        | nil => rw [hp] at hlen; simp at hlen; omega
        | cons b rest => exact ⟨a, b, rest, rfl⟩
    have hs : sentTo (broadcast connections (encoding ops a a) ++
        broadcast connections ("#OneMore#" ++ encoding ops b a)) hdl =
        [encoding ops a a, "#OneMore#" ++ encoding ops b a] := by
      rw [sentTo_append, sentTo_broadcast hvalid hmem, sentTo_broadcast hvalid hmem]
      rfl
    refine ⟨_, OnFrame_two ops frame connections a b rest h' hp, ?_, ?_, ?_, ?_⟩
    · rw [hs]
      have : min frame.nHands 2 = 2 := by omega
      rw [this]; rfl
    · intro h0; omega
    · intro h1; omega
    · intro _; exact ⟨a, b, by simp [hp], by simp [hp], hs⟩

/-- Witness for `OnFrame_messages_per_client`: the two-hand frame and the registry that
holds `clientA`. -/
theorem OnFrame_messages_per_client_witness :
    twoHands.nHands ≤ twoHands.pHands.length ∧ registryA.valid ∧
      ("127.0.0.1:5000", clientA) ∈ registryA ∧
      ∃ sends, OnFrame exactOps twoHands registryA = some sends ∧
        (sentTo sends clientA).length = min twoHands.nHands 2 ∧
        (twoHands.nHands = 0 → sentTo sends clientA = []) ∧
        (twoHands.nHands = 1 → ∃ h0, twoHands.pHands[0]? = some h0 ∧
          sentTo sends clientA = [encoding exactOps h0 h0]) ∧
        (2 ≤ twoHands.nHands → ∃ h0 h1, twoHands.pHands[0]? = some h0 ∧
          twoHands.pHands[1]? = some h1 ∧
          sentTo sends clientA = [encoding exactOps h0 h0, "#OneMore#" ++ encoding exactOps h1 h0]) :=
  ⟨by decide, by decide, by decide,
    OnFrame_messages_per_client exactOps twoHands registryA "127.0.0.1:5000" clientA
      (by decide) (by decide) (by decide)⟩

/-- C2: for a frame with `n ≥ 1` hands, the payloads of the frame read in order hold the
encoding of hand 0 alone and no separator when `n = 1`, and the encoding of hand 0, one
separator and the encoding of hand 1 when `n ≥ 2`; a frame that agrees on the first two
hands and on `min n 2` produces the same sends. -/
theorem OnFrame_separator_and_hands {M : Type} (ops : FloatOps M)
    (frame : LEAP_TRACKING_EVENT M) (connections : Connections)
    (hfmt : ∀ v, noO (ops.fmt v)) (hn : 1 ≤ frame.nHands)
    (hlen : frame.nHands ≤ frame.pHands.length) :
    ∃ h0, frame.pHands[0]? = some h0 ∧
      occurrences OneMore.data (encoding ops h0 h0).data = 0 ∧
      (frame.nHands = 1 →
        OnFrame ops frame connections = some (broadcast connections (encoding ops h0 h0))) ∧
      (2 ≤ frame.nHands → ∃ h1, frame.pHands[1]? = some h1 ∧
        OnFrame ops frame connections =
          some (broadcast connections (encoding ops h0 h0) ++
            broadcast connections ("#OneMore#" ++ encoding ops h1 h0)) ∧
        occurrences OneMore.data (encoding ops h1 h0).data = 0 ∧
        occurrences OneMore.data
          (encoding ops h0 h0 ++ ("#OneMore#" ++ encoding ops h1 h0)).data = 1) ∧
      (∀ other : LEAP_TRACKING_EVENT M, other.pHands.take 2 = frame.pHands.take 2 →
        min other.nHands 2 = min frame.nHands 2 →
        OnFrame ops other connections = OnFrame ops frame connections) := by
  obtain ⟨a, rest, hp⟩ : ∃ a rest, frame.pHands = a :: rest := by
    cases hp : frame.pHands with
    | nil => rw [hp] at hlen; simp at hlen; omega
    | cons a rest => exact ⟨a, rest, rfl⟩
  refine ⟨a, by simp [hp], occurrences_free _ (noO_encoding ops hfmt a a), ?_, ?_, ?_⟩
  · intro h1
    exact OnFrame_one ops frame connections a rest h1 hp
  · intro h2
    obtain ⟨b, rest2, hp2⟩ : ∃ b rest2, rest = b :: rest2 := by
      cases hr : rest with
      | nil => rw [hp, hr] at hlen; simp at hlen; omega
      | cons b rest2 => exact ⟨b, rest2, rfl⟩
    rw [hp2] at hp
    refine ⟨b, by simp [hp], OnFrame_two ops frame connections a b rest2 h2 hp,
      occurrences_free _ (noO_encoding ops hfmt b a), ?_⟩
    have hb : 'O' ∉ (encoding ops b a).data := noO_encoding ops hfmt b a
    have hhead : (OneMore.data ++ (encoding ops b a).data).head? ≠ some 'O' := by
      simp [OneMore]
    have hd : (encoding ops a a ++ ("#OneMore#" ++ encoding ops b a)).data =
        (encoding ops a a).data ++ (OneMore.data ++ (encoding ops b a).data) := by
      simp [OneMore]
    rw [hd, occurrences_skip _ _ (noO_encoding ops hfmt a a) hhead, occurrences_token _ hb]
  · intro other htake hmin
    rw [OnFrame_truncate ops other, OnFrame_truncate ops frame, htake, hmin]

/-- Witness for `OnFrame_separator_and_hands`: the two-hand frame under exact
arithmetic. -/
theorem OnFrame_separator_and_hands_witness :
    (∀ v, noO (exactOps.fmt v)) ∧ 1 ≤ twoHands.nHands ∧
      twoHands.nHands ≤ twoHands.pHands.length ∧
      ∃ h0, twoHands.pHands[0]? = some h0 ∧
        occurrences OneMore.data (encoding exactOps h0 h0).data = 0 ∧
        (twoHands.nHands = 1 →
          OnFrame exactOps twoHands registryA = some (broadcast registryA (encoding exactOps h0 h0))) ∧
        (2 ≤ twoHands.nHands → ∃ h1, twoHands.pHands[1]? = some h1 ∧
          OnFrame exactOps twoHands registryA =
            some (broadcast registryA (encoding exactOps h0 h0) ++
              broadcast registryA ("#OneMore#" ++ encoding exactOps h1 h0)) ∧
          occurrences OneMore.data (encoding exactOps h1 h0).data = 0 ∧
          occurrences OneMore.data
            (encoding exactOps h0 h0 ++ ("#OneMore#" ++ encoding exactOps h1 h0)).data = 1) ∧
        (∀ other : LEAP_TRACKING_EVENT Frac, other.pHands.take 2 = twoHands.pHands.take 2 →
          min other.nHands 2 = min twoHands.nHands 2 →
          OnFrame exactOps other registryA = OnFrame exactOps twoHands registryA) :=
  ⟨exactOps_fmt_noO, by decide, by decide,
    OnFrame_separator_and_hands exactOps twoHands registryA exactOps_fmt_noO (by decide)
      (by decide)⟩

/-! ## The arm fields -/

/-- C5: for a frame with two or more hands, both messages end with the arm fields
computed from the arm bone of hand 0, and replacing the arm bone of hand 1 leaves every
send unchanged. -/
theorem OnFrame_arm_from_first_hand {M : Type} (ops : FloatOps M)
    (frame : LEAP_TRACKING_EVENT M) (connections : Connections)
    (h2 : 2 ≤ frame.nHands) (hlen : frame.nHands ≤ frame.pHands.length) :
    ∃ h0 h1 rest, frame.pHands = h0 :: h1 :: rest ∧
      OnFrame ops frame connections =
        some (broadcast connections (OnFrame.hand ops "" h0 ++ OnFrame.arm ops "" h0.arm) ++
          broadcast connections
            ("#OneMore#" ++ (OnFrame.hand ops "" h1 ++ OnFrame.arm ops "" h0.arm))) ∧
      OnFrame.arm ops "" h0.arm =
        "arm_pos: " ++ OutputFingerBonePos ops "" h0.arm ++ "; arm_dir: "
          ++ OutputFingerBoneDir ops "" h0.arm ∧
      ∀ arm : LEAP_BONE M,
        OnFrame ops { frame with pHands := h0 :: { h1 with arm := arm } :: rest } connections =
          OnFrame ops frame connections := by
  obtain ⟨a, b, rest, hp⟩ : ∃ a b rest, frame.pHands = a :: b :: rest := by
    cases hp : frame.pHands with
    | nil => rw [hp] at hlen; simp at hlen; omega
    | cons a l =>
      cases l with
      | nil => rw [hp] at hlen; simp at hlen; omega
      | cons b rest => exact ⟨a, b, rest, rfl⟩
  refine ⟨a, b, rest, hp, ?_, ?_, ?_⟩
  · rw [OnFrame_two ops frame connections a b rest h2 hp, encoding_split, encoding_split]
  · simp only [OnFrame.arm]
    rw [OutputFingerBonePos_append, OutputFingerBoneDir_append]
    simp [String.append_assoc]
  · intro arm
    rw [OnFrame_two ops frame connections a b rest h2 hp,
      OnFrame_two ops { frame with pHands := a :: { b with arm := arm } :: rest } connections a
        { b with arm := arm } rest h2 rfl]
    rfl

/-- Witness for `OnFrame_arm_from_first_hand`: the two-hand frame, whose hands have
different arm bones. -/
theorem OnFrame_arm_from_first_hand_witness :
    2 ≤ twoHands.nHands ∧ twoHands.nHands ≤ twoHands.pHands.length ∧
      ∃ h0 h1 rest, twoHands.pHands = h0 :: h1 :: rest ∧
        OnFrame exactOps twoHands registryA =
          some (broadcast registryA (OnFrame.hand exactOps "" h0 ++ OnFrame.arm exactOps "" h0.arm) ++
            broadcast registryA
              ("#OneMore#" ++ (OnFrame.hand exactOps "" h1 ++ OnFrame.arm exactOps "" h0.arm))) ∧
        OnFrame.arm exactOps "" h0.arm =
          "arm_pos: " ++ OutputFingerBonePos exactOps "" h0.arm ++ "; arm_dir: "
            ++ OutputFingerBoneDir exactOps "" h0.arm ∧
        ∀ arm : LEAP_BONE Frac,
          OnFrame exactOps { twoHands with pHands := h0 :: { h1 with arm := arm } :: rest }
              registryA =
            OnFrame exactOps twoHands registryA :=
  ⟨by decide, by decide,
    OnFrame_arm_from_first_hand exactOps twoHands registryA (by decide) (by decide)⟩

/-! ## The connection registry -/

/-- C6, as the claim states it, fails: after `clientA` and then `clientA2` register under
the same remote endpoint, the one entry for that endpoint holds `clientA`, the first
handle, not `clientA2`. -/
theorem websocket_open_handler_keeps_first :
    (websocket_open_handler (websocket_open_handler [] clientA) clientA2).filter
        (fun e => e.1 = "127.0.0.1:5000") = [("127.0.0.1:5000", clientA)] ∧
      (websocket_open_handler (websocket_open_handler [] clientA) clientA2).filter
        (fun e => e.1 = "127.0.0.1:5000") ≠ [("127.0.0.1:5000", clientA2)] := by
  decide

/-- C6 (amended): registering inserts only when the identifier is absent, so the first
write wins: after the open handler registers `(A, h1)` and then `(A, h2)`, the registry
is what it was after the first registration; it holds exactly one entry for `A`, which
maps `A` to `h1` when `A` was absent at the start and to the handle `A` already had
otherwise. -/
theorem websocket_open_handler_first_write_wins (connections : Connections)
    (h1 h2 : connection_hdl) (hsorted : connections.sorted)
    (hsame : (get_con_from_hdl h2).get_remote_endpoint =
      (get_con_from_hdl h1).get_remote_endpoint) :
    websocket_open_handler (websocket_open_handler connections h1) h2 =
        websocket_open_handler connections h1 ∧
      ((∀ e ∈ connections, e.1 ≠ (get_con_from_hdl h1).get_remote_endpoint) →
        (websocket_open_handler (websocket_open_handler connections h1) h2).filter
            (fun e => e.1 = (get_con_from_hdl h1).get_remote_endpoint) =
          [((get_con_from_hdl h1).get_remote_endpoint, h1)]) ∧
      (∀ h0, ((get_con_from_hdl h1).get_remote_endpoint, h0) ∈ connections →
        (websocket_open_handler (websocket_open_handler connections h1) h2).filter
            (fun e => e.1 = (get_con_from_hdl h1).get_remote_endpoint) =
          [((get_con_from_hdl h1).get_remote_endpoint, h0)]) := by
  have hsecond : websocket_open_handler (websocket_open_handler connections h1) h2 =
      websocket_open_handler connections h1 := by
    unfold websocket_open_handler
    simp only [hsame]
    exact Connections_insert_present (Connections_insert_sorted hsorted)
      (Connections_insert_has_key _ _)
  refine ⟨hsecond, ?_, ?_⟩
  · intro habsent
    rw [hsecond]
    exact Connections_insert_absent habsent
  · intro h0 hmem
    rw [hsecond]
    have hfirst : websocket_open_handler connections h1 = connections :=
      Connections_insert_present hsorted ⟨_, hmem, rfl⟩
    rw [hfirst]
    exact Connections_filter_key_present hsorted hmem

/-- Witness for `websocket_open_handler_first_write_wins`: `clientA` then `clientA2`
register with a registry that holds `clientB`. -/
theorem websocket_open_handler_first_write_wins_witness :
    Connections.sorted [("127.0.0.1:5001", clientB)] ∧
      (get_con_from_hdl clientA2).get_remote_endpoint =
        (get_con_from_hdl clientA).get_remote_endpoint ∧
      (∀ e ∈ [("127.0.0.1:5001", clientB)],
        e.1 ≠ (get_con_from_hdl clientA).get_remote_endpoint) ∧
      (websocket_open_handler
          (websocket_open_handler [("127.0.0.1:5001", clientB)] clientA) clientA2).filter
          (fun e => e.1 = (get_con_from_hdl clientA).get_remote_endpoint) =
        [((get_con_from_hdl clientA).get_remote_endpoint, clientA)] :=
  ⟨by decide, by decide, by decide,
    (websocket_open_handler_first_write_wins [("127.0.0.1:5001", clientB)] clientA clientA2
      (by decide) (by decide)).2.1 (by decide)⟩

/-- C7: from the empty registry, after the open handler registers `h1` the broadcast
iteration sends to `h1` once and to nothing else; after the close handler then runs for
that remote endpoint the broadcast iteration sends nothing; and for an identifier that
the registry does not hold the close handler returns the registry unchanged. -/
theorem registry_register_deregister (h1 : connection_hdl) (outputstr : String) :
    broadcast (websocket_open_handler [] h1) outputstr =
        [{ hdl := h1, payload := outputstr }] ∧
      (∀ hdl : connection_hdl,
        (get_con_from_hdl hdl).get_remote_endpoint =
          (get_con_from_hdl h1).get_remote_endpoint →
        broadcast (websocket_close_handler (websocket_open_handler [] h1) hdl) outputstr
          = []) ∧
      (∀ (connections : Connections) (hdl : connection_hdl),
        (∀ e ∈ connections, e.1 ≠ (get_con_from_hdl hdl).get_remote_endpoint) →
        websocket_close_handler connections hdl = connections) := by
  refine ⟨rfl, ?_, ?_⟩
  · intro hdl hsame
    simp [websocket_open_handler, websocket_close_handler, Connections.insert,
      Connections.find, Connections.erase, hsame, broadcast]
  · intro connections hdl habsent
    unfold websocket_close_handler
    simp only [Connections_find_eq_none habsent]

/-- Witness for `registry_register_deregister`: `clientA` registers and closes, and
`clientB`, which never registered, closes on the registry that holds `clientA`. -/
theorem registry_register_deregister_witness :
    broadcast (websocket_open_handler [] clientA) "x" = [{ hdl := clientA, payload := "x" }] ∧
      broadcast (websocket_close_handler (websocket_open_handler [] clientA) clientA) "x"
        = [] ∧
      (∀ e ∈ registryA, e.1 ≠ (get_con_from_hdl clientB).get_remote_endpoint) ∧
      websocket_close_handler registryA clientB = registryA :=
  ⟨(registry_register_deregister clientA "x").1,
    (registry_register_deregister clientA "x").2.1 clientA rfl,
    by decide,
    (registry_register_deregister clientA "x").2.2 registryA clientB (by decide)⟩

/-! ## The lifecycle of `main` -/

/-- C9, as the claim states it, fails: when `LeapCreateConnection` fails and nothing is
ever typed, `main` returns 0 after three calls, none of which shows the prompt. -/
theorem main_create_failure_no_prompt :
    main { code := 1 } eLeapRS.eLeapRS_Success [] =
        some ([Action.InitializeCriticalSection, Action.cout "Establishing Connection",
          Action.LeapCreateConnection], 0) ∧
      Action.cout "Press q to exit" ∉
        [Action.InitializeCriticalSection, Action.cout "Establishing Connection",
          Action.LeapCreateConnection] ∧
      Action.cin 'q' ∉
        [Action.InitializeCriticalSection, Action.cout "Establishing Connection",
          Action.LeapCreateConnection] := by
  decide

/-- C9 (amended): when `LeapCreateConnection` fails, `main` returns 0 at once, without
starting a worker, showing the prompt or reading input.  When it succeeds and
`LeapOpenConnection` fails, `main` starts no worker, shows the prompt, extracts
characters up to the first `q`, shuts down and returns 0; without a `q` on the input it
never returns.  In neither case is a line about the failure written. -/
theorem main_on_session_failure (ret other : eLeapRS) (stdin : List Char)
    (hfail : ret ≠ eLeapRS.eLeapRS_Success) :
    main ret other stdin =
        some ([Action.InitializeCriticalSection, Action.cout "Establishing Connection",
          Action.LeapCreateConnection], 0) ∧
      ('q' ∈ stdin →
        main eLeapRS.eLeapRS_Success ret stdin =
          some ([Action.InitializeCriticalSection, Action.cout "Establishing Connection",
              Action.LeapCreateConnection, Action.cout "Connection created successfully",
              Action.LeapOpenConnection, Action.cout "Press q to exit"]
            ++ (((stdin.filter (fun c => !isspace c)).takeWhile (fun c => c ≠ 'q')).map
              Action.cin ++ [Action.cin 'q'])
            ++ main.shutdown, 0)) ∧
      ('q' ∉ stdin → main eLeapRS.eLeapRS_Success ret stdin = none) ∧
      (∀ result, main eLeapRS.eLeapRS_Success ret stdin = some result →
        result.2 = 0 ∧ (∀ w, Action.CreateThread w ∉ result.1) ∧
        Action.cout "Press q to exit" ∈ result.1 ∧ Action.cin 'q' ∈ result.1 ∧
        ∀ line, Action.cout line ∈ result.1 →
          line ∈ ["Establishing Connection", "Connection created successfully",
            "Press q to exit"]) := by
  have hq : 'q' ∈ stdin →
      main eLeapRS.eLeapRS_Success ret stdin =
        some ([Action.InitializeCriticalSection, Action.cout "Establishing Connection",
            Action.LeapCreateConnection, Action.cout "Connection created successfully",
            Action.LeapOpenConnection, Action.cout "Press q to exit"]
          ++ (((stdin.filter (fun c => !isspace c)).takeWhile (fun c => c ≠ 'q')).map
            Action.cin ++ [Action.cin 'q'])
          ++ main.shutdown, 0) := by
    intro h
    simp only [main, if_true, if_neg hfail, main_prompt_of_mem stdin h]
    rfl
  have hnq : 'q' ∉ stdin → main eLeapRS.eLeapRS_Success ret stdin = none := by
    intro h
    simp only [main, if_true, if_neg hfail, main_prompt_of_not_mem stdin h]
  refine ⟨?_, hq, hnq, ?_⟩
  · simp only [main, if_neg hfail]
  · intro result hres
    by_cases h : 'q' ∈ stdin
    · rw [hq h] at hres
      cases hres
      simp [main.shutdown]
    · rw [hnq h] at hres
      cases hres

/-- Witness for `main_on_session_failure`: result code 1 and the input `x`, newline,
`q`, newline. -/
theorem main_on_session_failure_witness :
    ({ code := 1 } : eLeapRS) ≠ eLeapRS.eLeapRS_Success ∧ 'q' ∈ ['x', '\n', 'q', '\n'] ∧
      main { code := 1 } eLeapRS.eLeapRS_Success ['x', '\n', 'q', '\n'] =
        some ([Action.InitializeCriticalSection, Action.cout "Establishing Connection",
          Action.LeapCreateConnection], 0) ∧
      main eLeapRS.eLeapRS_Success { code := 1 } ['x', '\n', 'q', '\n'] =
        some ([Action.InitializeCriticalSection, Action.cout "Establishing Connection",
            Action.LeapCreateConnection, Action.cout "Connection created successfully",
            Action.LeapOpenConnection, Action.cout "Press q to exit"]
          ++ (((['x', '\n', 'q', '\n'].filter (fun c => !isspace c)).takeWhile
              (fun c => c ≠ 'q')).map Action.cin ++ [Action.cin 'q'])
          ++ main.shutdown, 0) :=
  ⟨by decide, by decide,
    (main_on_session_failure { code := 1 } eLeapRS.eLeapRS_Success ['x', '\n', 'q', '\n']
      (by decide)).1,
    (main_on_session_failure { code := 1 } eLeapRS.eLeapRS_Success ['x', '\n', 'q', '\n']
      (by decide)).2.1 (by decide)⟩

/-! ## The lock around the registry -/

/-- C8 fails on the code: `websocket_open_handler` performs its `insert` outside the
critical section, and in the schedule given the insertion runs while the poll thread
owns the lock, between two steps of its iteration.  The other two routines do what the
claim says: `websocket_close_handler` and the broadcast of `OnFrame` keep every map
operation inside the critical section, so in every schedule of the two each map
operation is made by the owner of the lock; the last two parts show a schedule that the
lock forbids and a complete run of the two. -/
theorem websocket_open_handler_unguarded :
    guarded false websocket_open_handler.steps = false ∧
      interleave
          [false, false, false, true, true, true, true, false, false, false, false]
          (OnFrame.broadcast_steps 1) websocket_open_handler.steps none =
        some
          [(false, Step.EnterCriticalSection, none),
            (false, Step.map "begin", some false),
            (false, Step.map "end", some false),
            (true, Step.other "cout", some false),
            (true, Step.other "get_con_from_hdl", some false),
            (true, Step.other "get_remote_endpoint", some false),
            (true, Step.map "insert", some false),
            (false, Step.other "send", some false),
            (false, Step.map "++iter", some false),
            (false, Step.map "end", some false),
            (false, Step.LeaveCriticalSection, some false)] ∧
      (∀ found, guarded false (websocket_close_handler.steps found) = true) ∧
      (∀ clients, guarded false (OnFrame.broadcast_steps clients) = true) ∧
      (∀ schedule clients found events,
        interleave schedule (OnFrame.broadcast_steps clients)
          (websocket_close_handler.steps found) none = some events →
        ∀ e ∈ events, e.2.1.isMap = true → e.2.2 = some e.1) ∧
      interleave [true, true, false] (OnFrame.broadcast_steps 1)
          (websocket_close_handler.steps true) none = none ∧
      interleave
          [true, true, true, true, true, true, true, true, true,
            false, false, false, false, false, false, false]
          (OnFrame.broadcast_steps 1) (websocket_close_handler.steps true) none =
        some
          [(true, Step.other "cout", none),
            (true, Step.EnterCriticalSection, none),
            (true, Step.other "get_con_from_hdl", some true),
            (true, Step.other "get_remote_endpoint", some true),
            (true, Step.map "find", some true),
            (true, Step.map "end", some true),
            (true, Step.map "erase", some true),
            (true, Step.other "cout", some true),
            (true, Step.LeaveCriticalSection, some true),
            (false, Step.EnterCriticalSection, none),
            (false, Step.map "begin", some false),
            (false, Step.map "end", some false),
            (false, Step.other "send", some false),
            (false, Step.map "++iter", some false),
            (false, Step.map "end", some false),
            (false, Step.LeaveCriticalSection, some false)] := by
  refine ⟨by decide, by decide, guarded_close_steps, guarded_broadcast_steps, ?_, by decide,
    by decide⟩
  intro schedule clients found events h
  exact interleave_guarded schedule _ _ none events (guarded_broadcast_steps clients)
    (guarded_close_steps found) h

end PortalbleService
